import Mathlib

/-!
Shallow embedding of the `heapbuf` crate (src/buf.rs, src/destructor.rs).

Machine integers are modelled as `Nat` with explicit wrapping modulo
`W = 2^64` (usize) where the source performs machine arithmetic, and as
`Int` with explicit two's-complement wrapping for i64.  Arithmetic follows
release-mode Rust semantics (overflow wraps).  Raw memory is modelled as a
total function from addresses to byte values; raw pointers are addresses.
A Rust `panic!` is modelled as `none` / an error value, diverging paths are
absent (all source functions here are total).
-/

namespace Heapbuf

/-- Size of the usize value space (64-bit target). -/
def W : Nat := 2 ^ 64

/-- usize wrapping addition. -/
def wadd (a b : Nat) : Nat := (a + b) % W

/-- usize wrapping subtraction (for representable operands `a b < W`). -/
def wsub (a b : Nat) : Nat := (a + W - b) % W

/-- Cast `usize as i64` (two's complement reinterpretation). -/
def toI64 (p : Nat) : Int := if p < 2 ^ 63 then (p : Int) else (p : Int) - 2 ^ 64

/-- i64 wrapping normalisation of a mathematical integer. -/
def iwrap (x : Int) : Int := (x + 2 ^ 63) % 2 ^ 64 - 2 ^ 63

/-- Byte memory: a total map from addresses to byte values. -/
abbrev Mem := Nat → Nat

/-- Reads the `n` bytes starting at `addr` (models `std::ptr::copy` out). -/
def readBytes (m : Mem) (addr n : Nat) : List Nat :=
  (List.range n).map fun i => m (addr + i)

/-- Store `data` into memory starting at `addr` (models `std::ptr::copy` in). -/
def writeBytes (m : Mem) (addr : Nat) (data : List Nat) : Mem :=
  fun a => if addr ≤ a ∧ a - addr < data.length then data.getD (a - addr) 0 else m a

/-- Source `src/destructor.rs`: `HBufDestructorInfo` — the closed set of release actions.
Function pointers and boxed destructor objects are identified by an abstract id. -/
inductive HBufDestructorInfo where
  | layout (size align : Nat)
  | destructor (fnId : Nat)
  | dynDestructor (objId : Nat)
deriving DecidableEq, Repr

/-- Source `src/destructor.rs`: `HBufDestructor` — pointer, capacity and release action,
fixed at construction time. -/
structure HBufDestructor where
  data_ptr : Nat
  capacity : Nat
  destructor_info : HBufDestructorInfo
deriving DecidableEq, Repr

/-- Source `src/buf.rs`: `struct HBuf`.  The `Arc<Option<HBufDestructor>>` is modelled by
an abstract identity `registry` of the shared Arc allocation together with its
(immutable, shared) contents `destructor`. -/
structure HBuf where
  data_ptr : Nat
  capacity : Nat
  limit : Nat
  position : Nat
  registry : Nat
  destructor : Option HBufDestructor
deriving DecidableEq, Repr

/-- Strong counts of the Arc allocations, indexed by registry identity
(models `std::sync::Arc` strong counting). -/
abbrev World := Nat → Nat

/-- Source `Arc::clone`: increment the strong count of registry entry `r`. -/
def arcClone (w : World) (r : Nat) : World :=
  fun x => if x = r then w x + 1 else w x

/-- Source `HBuf::from_raw_parts`: adopt external memory, no destructor
(`destructor: Arc::new(None)`); `r` is the fresh Arc identity. -/
def from_raw_parts (r data size : Nat) : HBuf :=
  ⟨data, size, size, 0, r, none⟩

/-- Source `HBuf::from_raw_parts_with_destructor`: adopt external memory and register a
destructor function. -/
def from_raw_parts_with_destructor (r data size fnId : Nat) : HBuf :=
  ⟨data, size, size, 0, r, some ⟨data, size, .destructor fnId⟩⟩

/-- Source `HBuf::has_destructor` (verbatim from source: `self.destructor.is_none()`). -/
def has_destructor (s : HBuf) : Bool := s.destructor.isNone

/-- Source `HBuf::remaining`: `self.limit - self.position` (usize subtraction). -/
def remaining (s : HBuf) : Nat := wsub s.limit s.position

/-- The window invariant of the spec: `0 ≤ position ≤ limit ≤ capacity`. -/
def Inv (s : HBuf) : Prop := s.position ≤ s.limit ∧ s.limit ≤ s.capacity

instance (s : HBuf) : Decidable (Inv s) := by unfold Inv; infer_instance

/-- Source `HBuf::set_limit`; `none` models the `panic!`. -/
def set_limit (s : HBuf) (new_limit : Nat) : Option HBuf :=
  if new_limit > s.capacity then none
  else
    let s1 : HBuf := { s with limit := new_limit }
    some (if s1.position > s1.limit then { s1 with position := s1.limit } else s1)

/-- Source `HBuf::try_set_limit`. -/
def try_set_limit (s : HBuf) (new_limit : Nat) : Bool × HBuf :=
  if new_limit > s.capacity then (false, s)
  else
    let s1 : HBuf := { s with limit := new_limit }
    (true, if s1.position > s1.limit then { s1 with position := s1.limit } else s1)

/-- Source `HBuf::set_position`; `none` models the `panic!`. -/
def set_position (s : HBuf) (new_position : Nat) : Option HBuf :=
  if new_position > s.limit then none else some { s with position := new_position }

/-- Source `HBuf::try_set_position`. -/
def try_set_position (s : HBuf) (new_position : Nat) : Bool × HBuf :=
  if new_position > s.limit then (false, s) else (true, { s with position := new_position })

/-- Source `HBuf::flip`. -/
def flip (s : HBuf) : HBuf := { s with limit := s.position, position := 0 }

/-- Source `HBuf::reset`. -/
def reset (s : HBuf) : HBuf := { s with limit := s.capacity, position := 0 }

/-- Source `HBuf::split`; `none` models the `panic!`.  The bounds check `off+length >
self.capacity` uses machine (wrapping) addition, the sub-buffer pointer uses
`wrapping_add`, and `self.destructor.clone()` is an `Arc` clone. -/
def split (w : World) (s : HBuf) (off length : Nat) : Option (World × HBuf) :=
  if wadd off length > s.capacity then none
  else some (arcClone w s.registry,
    ⟨wadd s.data_ptr off, length, length, 0, s.registry, s.destructor⟩)

/-- Source `HBuf::try_split`. -/
def try_split (w : World) (s : HBuf) (off length : Nat) : Option (World × HBuf) :=
  if wadd off length > s.capacity then none
  else some (arcClone w s.registry,
    ⟨wadd s.data_ptr off, length, length, 0, s.registry, s.destructor⟩)

/-- Source `impl Clone for HBuf`: identical window state, `Arc` clone of the registry handle. -/
def cloneBuf (w : World) (s : HBuf) : World × HBuf :=
  (arcClone w s.registry, s)

/-- I/O error kinds that the source produces on the modelled paths. -/
inductive ErrKind where
  | unexpectedEof
deriving DecidableEq, Repr

/-- Source `HBuf::seek_start` (`from: u64`). -/
def seek_start (s : HBuf) (f : Nat) : Bool × HBuf :=
  if f > s.limit then (false, s) else (true, { s with position := f })

/-- Source `HBuf::seek_end` (`from: i64`): `from.abs() as u64` is `Int.natAbs` (also at
`i64::MIN`, where the wrapping `abs` reinterpreted as u64 yields `2^63`). -/
def seek_end (s : HBuf) (f : Int) : Bool × HBuf :=
  if f > 0 then (false, s)
  else
    let fa := f.natAbs
    if fa > s.limit then (false, s) else (true, { s with position := s.limit - fa })

/-- Source `HBuf::seek_cur`: `self.position as i64 + from` with i64 wrapping, then
`pos as u64` on the non-negative path. -/
def seek_cur (s : HBuf) (f : Int) : Bool × HBuf :=
  let pos := iwrap (toI64 s.position + f)
  if pos < 0 then (false, s) else seek_start s pos.toNat

/-- Source `std::io::SeekFrom`. -/
inductive SeekFrom where
  | start (p : Nat)
  | endPos (p : Int)
  | current (p : Int)

/-- Source `impl Seek for HBuf`: dispatch, then `Ok(self.position as u64)` on success or
`Err(UnexpectedEof)` on failure; the buffer is returned alongside. -/
def seek (s : HBuf) (pos : SeekFrom) : Except ErrKind Nat × HBuf :=
  let r := match pos with
    | .start p => seek_start s p
    | .endPos p => seek_end s p
    | .current p => seek_cur s p
  if r.1 then (.ok r.2.position, r.2) else (.error .unexpectedEof, s)

/-- Source `impl Write for HBuf`, `write`: `to_copy = buf.len().min(self.position - self.limit)`
(usize subtraction as written in the source), position advanced by `to_copy`;
the source copies no bytes, so the memory is returned unchanged. -/
def write (m : Mem) (s : HBuf) (buf : List Nat) : Nat × Mem × HBuf :=
  let to_copy := min buf.length (wsub s.position s.limit)
  if to_copy = 0 then (0, m, s)
  else (to_copy, m, { s with position := wadd s.position to_copy })

/-- Source `impl Read for HBuf`, `read`: same `self.position - self.limit` count, copies
`to_copy` bytes from `data_ptr + position` into the destination prefix. -/
def read (m : Mem) (s : HBuf) (len : Nat) : Nat × List Nat × HBuf :=
  let to_copy := min len (wsub s.position s.limit)
  if to_copy = 0 then (0, [], s)
  else (to_copy, readBytes m (wadd s.data_ptr s.position) to_copy,
    { s with position := wadd s.position to_copy })

/-- Source `impl Write for HBuf`, `write_all`: error (state and memory untouched) when
`self.limit - self.position < buf.len()`, else copy and advance. -/
def write_all (m : Mem) (s : HBuf) (buf : List Nat) : Except ErrKind Unit × Mem × HBuf :=
  if buf.length = 0 then (.ok (), m, s)
  else if wsub s.limit s.position < buf.length then (.error .unexpectedEof, m, s)
  else (.ok (), writeBytes m (wadd s.data_ptr s.position) buf,
    { s with position := wadd s.position buf.length })

/-- Source `impl Read for HBuf`, `read_exact`: error (state untouched) when
`self.limit - self.position < buf.len()`, else return the copied bytes and advance. -/
def read_exact (m : Mem) (s : HBuf) (len : Nat) : Except ErrKind (List Nat) × HBuf :=
  if len = 0 then (.ok [], s)
  else if wsub s.limit s.position < len then (.error .unexpectedEof, s)
  else (.ok (readBytes m (wadd s.data_ptr s.position) len),
    { s with position := wadd s.position len })

/-- Models `<*mut u8>::align_offset` for stride-1 pointers: the distance to the next
`a`-aligned address. -/
def align_offset (p a : Nat) : Nat := (a - p % a) % a

/-- The `known_type!` slice accessor, instantiated at element size `sz` and
alignment `align`: `None` when misaligned, else the raw-parts pair
`(data_ptr, limit / size_of::<T>())`. -/
def as_slice_typed (sz align : Nat) (s : HBuf) : Option (Nat × Nat) :=
  if align_offset s.data_ptr align ≠ 0 then none
  else some (s.data_ptr, s.limit / sz)

/-- The `known_type!` `get` accessor at element size `sz`: bounds check
`index + (size_of - 1) >= limit` in wrapping usize arithmetic (`none` models the
`panic!`), then an unaligned read of `sz` bytes at `data_ptr + index`. -/
def get_typed (m : Mem) (sz : Nat) (s : HBuf) (index : Nat) : Option (List Nat) :=
  if wadd index (sz - 1) ≥ s.limit then none
  else some (readBytes m (wadd s.data_ptr index) sz)

/-- The `known_type!` `set` accessor at element size `sz`: same wrapping bounds
check, then an unaligned write of the `sz`-byte value. -/
def set_typed (m : Mem) (sz : Nat) (s : HBuf) (index : Nat) (value : List Nat) : Option Mem :=
  if wadd index (sz - 1) ≥ s.limit then none
  else some (writeBytes m (wadd s.data_ptr index) value)

/-- Handle events on one destructor registry entry: `HBuf::clone` and
`HBuf::split` perform `Arc::clone`; dropping an `HBuf` drops one strong handle. -/
inductive ArcOp where
  | cloneOp
  | splitOp
  | dropOp
deriving DecidableEq, Repr

/-- State of one registry entry: the number of live strong handles and the log of
release-action invocations `(pointer, size)` performed so far. -/
structure RegState where
  live : Nat
  calls : List (Nat × Nat)
deriving DecidableEq, Repr

/-- One handle event (models `Arc` strong counting plus `impl Drop for
HBufDestructor`, which runs the release action with the stored original pointer
and capacity exactly when the last strong handle is dropped).  An event on an
entry with no live handles is impossible (`none`). -/
def arcStep (e : HBufDestructor) (st : RegState) : ArcOp → Option RegState
  | .cloneOp => if st.live = 0 then none else some { st with live := st.live + 1 }
  | .splitOp => if st.live = 0 then none else some { st with live := st.live + 1 }
  | .dropOp =>
    if st.live = 0 then none
    else if st.live = 1 then some ⟨0, st.calls ++ [(e.data_ptr, e.capacity)]⟩
    else some { st with live := st.live - 1 }

/-- Run a sequence of handle events. -/
def arcRun (e : HBufDestructor) (st : RegState) : List ArcOp → Option RegState
  | [] => some st
  | op :: ops =>
    match arcStep e st op with
    | none => none
    | some st2 => arcRun e st2 ops

theorem wadd_eq_add {a b : Nat} (h : a + b < W) : wadd a b = a + b :=
  Nat.mod_eq_of_lt h

theorem wsub_eq_sub {a b : Nat} (hb : b ≤ a) (ha : a < W) : wsub a b = a - b := by
  unfold wsub
  have h1 : a + W - b = W + (a - b) := by omega
  rw [h1, Nat.add_mod_left, Nat.mod_eq_of_lt (by omega)]

/-- C1: the partial-transfer stream operations are broken in the source: the
transfer count is `buf.len().min(self.position - self.limit)` (subtraction the
wrong way round, wrapping), so on a buffer with `capacity = limit = 4`,
`position = 0`, a 10-byte `write` reports 10 bytes written, advances `position`
to 10 (past `limit`), and stores nothing into memory, and a 10-byte `read`
reports 10 bytes read and advances `position` to 10 — instead of the claimed
`min(10, limit - position) = 4`. -/
theorem write_read_count_bug :
    (write (fun _ => 3) ⟨0, 4, 4, 0, 0, none⟩ [1, 1, 1, 1, 1, 1, 1, 1, 1, 1]).1 = 10 ∧
    (write (fun _ => 3) ⟨0, 4, 4, 0, 0, none⟩ [1, 1, 1, 1, 1, 1, 1, 1, 1, 1]).2.2.position = 10 ∧
    (write (fun _ => 3) ⟨0, 4, 4, 0, 0, none⟩ [1, 1, 1, 1, 1, 1, 1, 1, 1, 1]).2.1 0 = 3 ∧
    (read (fun _ => 3) ⟨0, 4, 4, 0, 0, none⟩ 10).1 = 10 ∧
    (read (fun _ => 3) ⟨0, 4, 4, 0, 0, none⟩ 10).2.2.position = 10 := by
  refine ⟨?_, ?_, ?_, ?_, ?_⟩ <;> decide

/-- C2: the window invariant `position ≤ limit ≤ capacity` is not preserved by
`Write::write`: starting from the valid state `capacity = limit = 4`,
`position = 0`, writing 6 bytes returns normally (count 6) and leaves
`position = 6 > limit = 4`. -/
theorem invariant_write_bug :
    Inv ⟨0, 4, 4, 0, 0, none⟩ ∧
    (write (fun _ => 0) ⟨0, 4, 4, 0, 0, none⟩ [9, 9, 9, 9, 9, 9]).1 = 6 ∧
    ¬ Inv (write (fun _ => 0) ⟨0, 4, 4, 0, 0, none⟩ [9, 9, 9, 9, 9, 9]).2.2 := by
  refine ⟨?_, ?_, ?_⟩ <;> decide

/-- C3: `has_destructor` is inverted in the source (it returns
`self.destructor.is_none()`): a buffer adopted via `from_raw_parts` (no
destructor) reports `true`, and a buffer constructed via
`from_raw_parts_with_destructor` reports `false` — the opposite of the claim
and of the function's own documentation. -/
theorem has_destructor_bug :
    has_destructor (from_raw_parts 0 1000 16) = true ∧
    has_destructor (from_raw_parts_with_destructor 1 1000 16 5) = false := by
  decide

/-- C6 counterexample: with `off = usize::MAX` and `length = 2` on a buffer of
capacity 1, the mathematical sum `off + length` exceeds the parent capacity, yet
`try_split` returns `Some` (and `split` does not panic), because the bounds
check adds with wrapping. -/
theorem split_overflow_counterexample :
    (2 ^ 64 - 1) + 2 > (1 : Nat) ∧
    (try_split (fun _ => 1) ⟨0, 1, 1, 0, 0, none⟩ (2 ^ 64 - 1) 2).isSome = true ∧
    (split (fun _ => 1) ⟨0, 1, 1, 0, 0, none⟩ (2 ^ 64 - 1) 2).isSome = true := by
  refine ⟨?_, ?_, ?_⟩ <;> decide

/-- C8 counterexample: for a 2-byte element type, `get` at
`index = usize::MAX` on a buffer with `limit = 1` satisfies the claimed panic
condition `index + size_of - 1 ≥ limit` mathematically, yet the source's
wrapping bounds check passes and the accessor succeeds (reading out of
bounds). -/
theorem get_overflow_counterexample :
    (2 ^ 64 - 1) + 2 - 1 ≥ (1 : Nat) ∧
    (get_typed (fun _ => 0) 2 ⟨0, 1, 1, 0, 0, none⟩ (2 ^ 64 - 1)).isSome = true := by
  refine ⟨?_, ?_⟩ <;> decide

theorem writeBytes_nil (m : Mem) (addr : Nat) : writeBytes m addr [] = m := by
  funext a
  simp [writeBytes]

theorem align_offset_eq_zero {p a : Nat} (ha : 1 ≤ a) :
    align_offset p a = 0 ↔ p % a = 0 := by
  unfold align_offset
  constructor
  · intro h
    by_contra hr
    have hlt : p % a < a := Nat.mod_lt _ (by omega)
    rw [Nat.mod_eq_of_lt (by omega)] at h
    omega
  · intro h
    rw [h, Nat.sub_zero, Nat.mod_self]

/-- C10: the bounds check of `split`/`try_split` adds `off + length` with
wrapping machine arithmetic: with `off = usize::MAX` and `length = 2` the
wrapped sum is 1, so on any buffer of capacity ≥ 1 the check passes and both
functions hand out a sub-buffer (whose base pointer is the parent pointer
wrapped back by one byte, outside the parent allocation) although the
mathematical sum exceeds `usize::MAX` and the parent capacity. -/
theorem split_wrapping_check (w : World) (s : HBuf)
    (h1 : 1 ≤ s.capacity) (h2 : s.capacity < W) :
    (2 ^ 64 - 1) + 2 > s.capacity ∧
    try_split w s (2 ^ 64 - 1) 2 =
      some (arcClone w s.registry,
        ⟨wadd s.data_ptr (2 ^ 64 - 1), 2, 2, 0, s.registry, s.destructor⟩) ∧
    split w s (2 ^ 64 - 1) 2 = try_split w s (2 ^ 64 - 1) 2 := by
  have hW : W = 2 ^ 64 := rfl
  have hw : wadd (2 ^ 64 - 1) 2 = 1 := by decide
  refine ⟨by omega, ?_, rfl⟩
  unfold try_split
  rw [hw, if_neg (by omega)]

/-- Witness for `split_wrapping_check` at capacity 1. -/
theorem split_wrapping_check_witness :
    (2 ^ 64 - 1) + 2 > (1 : Nat) ∧
    try_split (fun _ => 1) ⟨5, 1, 1, 0, 0, none⟩ (2 ^ 64 - 1) 2 =
      some (arcClone (fun _ => 1) 0, ⟨wadd 5 (2 ^ 64 - 1), 2, 2, 0, 0, none⟩) ∧
    split (fun _ => 1) ⟨5, 1, 1, 0, 0, none⟩ (2 ^ 64 - 1) 2 =
      try_split (fun _ => 1) ⟨5, 1, 1, 0, 0, none⟩ (2 ^ 64 - 1) 2 :=
  split_wrapping_check (fun _ => 1) ⟨5, 1, 1, 0, 0, none⟩ (by decide) (by decide)

/-- C6 (amended): when `off + length` does not overflow usize, `split` panics
(and `try_split` returns `None`) exactly when `off + length > capacity`;
otherwise both return the identical sub-buffer: same registry handle with the
Arc strong count incremented by one, base pointer `parent + off` (mod `2^64`),
`capacity = limit = length`, `position = 0`, the parent being untouched. -/
theorem split_spec (w : World) (s : HBuf) (off length : Nat)
    (hov : off + length < W) :
    split w s off length =
      (if off + length > s.capacity then none
       else some (arcClone w s.registry,
         ⟨(s.data_ptr + off) % W, length, length, 0, s.registry, s.destructor⟩)) ∧
    try_split w s off length = split w s off length ∧
    arcClone w s.registry s.registry = w s.registry + 1 := by
  refine ⟨?_, rfl, by simp [arcClone]⟩
  unfold split
  rw [wadd_eq_add hov]
  rfl

/-- Witness for `split_spec`: splitting 2 bytes at offset 1 out of capacity 4. -/
theorem split_spec_witness :
    split (fun _ => 1) ⟨40, 4, 4, 3, 7, none⟩ 1 2 =
      (if 1 + 2 > 4 then none
       else some (arcClone (fun _ => 1) 7, ⟨(40 + 1) % W, 2, 2, 0, 7, none⟩)) ∧
    try_split (fun _ => 1) ⟨40, 4, 4, 3, 7, none⟩ 1 2 =
      split (fun _ => 1) ⟨40, 4, 4, 3, 7, none⟩ 1 2 ∧
    arcClone (fun _ => 1) 7 7 = 1 + 1 :=
  split_spec (fun _ => 1) ⟨40, 4, 4, 3, 7, none⟩ 1 2 (by decide)

/-- C5 counterexample: on a buffer with `limit = position = 2^63`
(constructible via `from_raw_parts`), `seek(Current, 0)` satisfies the claimed
success condition `0 ≤ position + 0 ≤ limit`, yet the source fails with
`UnexpectedEof` because `self.position as i64` reinterprets `2^63` as a
negative i64. -/
theorem seek_cur_large_counterexample :
    ((0 : Int) ≤ ((2 ^ 63 : Nat) : Int) + 0 ∧
      ((2 ^ 63 : Nat) : Int) + 0 ≤ ((2 ^ 63 : Nat) : Int)) ∧
    seek ⟨0, 2 ^ 63, 2 ^ 63, 2 ^ 63, 0, none⟩ (.current 0) =
      (.error .unexpectedEof, ⟨0, 2 ^ 63, 2 ^ 63, 2 ^ 63, 0, none⟩) := by
  exact ⟨by constructor <;> decide, rfl⟩

/-- C5 (amended): for buffers whose `limit` is below `2^63` (so window fields
fit in i64), seek from start succeeds iff `p ≤ limit` setting `position = p`;
from end iff `p ≤ 0` and `|p| ≤ limit` setting `position = limit - |p|`; from
current (offset an i64 value) iff `0 ≤ position + p ≤ limit` setting
`position = position + p`; a successful seek returns the new position and an
out-of-range seek returns `UnexpectedEof` leaving `position` unchanged. -/
theorem seek_spec (s : HBuf) (pu : Nat) (pe pc : Int)
    (hinv : Inv s) (hlim : s.limit < 2 ^ 63)
    (hc1 : -(2 ^ 63) ≤ pc) (hc2 : pc < 2 ^ 63) :
    seek s (.start pu) =
      (if pu ≤ s.limit then (.ok pu, { s with position := pu })
       else (.error .unexpectedEof, s)) ∧
    seek s (.endPos pe) =
      (if pe ≤ 0 ∧ pe.natAbs ≤ s.limit
       then (.ok (s.limit - pe.natAbs), { s with position := s.limit - pe.natAbs })
       else (.error .unexpectedEof, s)) ∧
    seek s (.current pc) =
      (if 0 ≤ (s.position : Int) + pc ∧ (s.position : Int) + pc ≤ (s.limit : Int)
       then (.ok ((s.position : Int) + pc).toNat,
         { s with position := ((s.position : Int) + pc).toNat })
       else (.error .unexpectedEof, s)) := by
  obtain ⟨hpl, hlc⟩ := hinv
  refine ⟨?_, ?_, ?_⟩
  · by_cases h : pu ≤ s.limit
    · rw [if_pos h]
      simp [seek, seek_start, Nat.not_lt.mpr h]
    · rw [if_neg h]
      simp [seek, seek_start, Nat.lt_of_not_le h]
  · by_cases h : pe ≤ 0 ∧ pe.natAbs ≤ s.limit
    · rw [if_pos h]
      simp [seek, seek_end, Int.not_lt.mpr h.1, Nat.not_lt.mpr h.2]
    · rw [if_neg h]
      rcases Decidable.not_and_iff_or_not.mp h with h1 | h2
      · simp [seek, seek_end, not_le.mp h1]
      · have hgt : s.limit < pe.natAbs := Nat.lt_of_not_le h2
        by_cases h0 : 0 < pe
        · simp [seek, seek_end, h0]
        · simp [seek, seek_end, h0, hgt, Nat.not_lt.mpr (le_of_lt hgt)]
    -- current
  · have hposI : toI64 s.position = (s.position : Int) := by
      unfold toI64
      rw [if_pos (by omega)]
    by_cases h : 0 ≤ (s.position : Int) + pc ∧ (s.position : Int) + pc ≤ (s.limit : Int)
    · rw [if_pos h]
      have hsmall : (s.position : Int) + pc < 2 ^ 63 := by
        have : (s.limit : Int) < 2 ^ 63 := by exact_mod_cast hlim
        omega
      have hiw : iwrap ((s.position : Int) + pc) = (s.position : Int) + pc := by
        unfold iwrap
        omega
      have htn : (((s.position : Int) + pc).toNat : Int) = (s.position : Int) + pc := by
        omega
      have hle : ((s.position : Int) + pc).toNat ≤ s.limit := by omega
      simp [seek, seek_cur, seek_start, hposI, hiw, Int.not_lt.mpr h.1,
        Nat.not_lt.mpr hle]
    · rw [if_neg h]
      rcases Decidable.not_and_iff_or_not.mp h with h1 | h2
      · have hneg : (s.position : Int) + pc < 0 := not_le.mp h1
        have hiw : iwrap (toI64 s.position + pc) < 0 := by
          rw [hposI]
          unfold iwrap
          omega
        simp [seek, seek_cur, hiw]
      · have hgt : (s.limit : Int) < (s.position : Int) + pc := not_le.mp h2
        by_cases hbig : (s.position : Int) + pc < 2 ^ 63
        · have hiw : iwrap ((s.position : Int) + pc) = (s.position : Int) + pc := by
            unfold iwrap
            have : (0 : Int) ≤ (s.position : Int) := by positivity
            omega
          by_cases hneg : (s.position : Int) + pc < 0
          · have hiw2 : iwrap (toI64 s.position + pc) < 0 := by
              rw [hposI, hiw]
              exact hneg
            simp [seek, seek_cur, hiw2]
          · have hlt : s.limit < ((s.position : Int) + pc).toNat := by omega
            simp [seek, seek_cur, seek_start, hposI, hiw, Int.not_lt.mpr (Int.not_lt.mp hneg),
              hlt]
        · have hiw : iwrap (toI64 s.position + pc) < 0 := by
            rw [hposI]
            unfold iwrap
            have hub : (s.position : Int) + pc < 2 ^ 64 := by
              have : (s.position : Int) ≤ (s.limit : Int) := by exact_mod_cast hpl
              have : (s.limit : Int) < 2 ^ 63 := by exact_mod_cast hlim
              omega
            omega
          simp [seek, seek_cur, hiw]

/-- Witness for `seek_spec` on the spec's own example: `position = 10`,
`limit = 12`, `seek(Current, +3)` fails with `UnexpectedEof` and leaves
`position = 10`. -/
theorem seek_spec_witness :
    seek ⟨0, 12, 12, 10, 0, none⟩ (.current 3) =
      (.error .unexpectedEof, ⟨0, 12, 12, 10, 0, none⟩) := by
  have h := (seek_spec ⟨0, 12, 12, 10, 0, none⟩ 5 (-3) 3 (by decide) (by decide)
    (by decide) (by decide)).2.2
  rw [if_neg (by decide)] at h
  exact h

/-- C7: the panicking and `try` boundary mutators agree on their shared domain:
`try_set_limit s n` returns `true` and the `set_limit` result state
(`limit = n`, `position = min position n`) exactly when `n ≤ capacity`, and
`false` with the state unchanged exactly when `set_limit` panics; likewise
`try_set_position`/`set_position` with bound `n ≤ limit` and effect
`position = n`. -/
theorem setters_try_vs_panic (s : HBuf) (n : Nat) :
    try_set_limit s n =
      (decide (n ≤ s.capacity),
        if n ≤ s.capacity then { s with limit := n, position := min s.position n } else s) ∧
    set_limit s n =
      (if n ≤ s.capacity then some { s with limit := n, position := min s.position n }
       else none) ∧
    try_set_position s n =
      (decide (n ≤ s.limit), if n ≤ s.limit then { s with position := n } else s) ∧
    set_position s n =
      (if n ≤ s.limit then some { s with position := n } else none) := by
  obtain ⟨dp, cap, lim, posn, reg, dtor⟩ := s
  refine ⟨?_, ?_, ?_, ?_⟩ <;>
    simp only [try_set_limit, set_limit, try_set_position, set_position, min_def] <;>
    split_ifs <;>
    simp_all [HBuf.mk.injEq] <;>
    omega

/-- C4: `read_exact` / `write_all` of an `N`-byte slice fail with
`UnexpectedEof` leaving position, memory and buffer untouched when
`remaining() < N` (and `N > 0`), and otherwise transfer exactly `N` bytes
between the region at `data_ptr + position` and the slice, advancing `position`
by exactly `N`. -/
theorem read_exact_write_all_spec (m : Mem) (s : HBuf) (data : List Nat)
    (hinv : Inv s) (hcap : s.capacity < W) :
    (0 < data.length → remaining s < data.length →
      read_exact m s data.length = (.error .unexpectedEof, s) ∧
      write_all m s data = (.error .unexpectedEof, m, s)) ∧
    (data.length ≤ remaining s →
      read_exact m s data.length =
        (.ok (readBytes m (wadd s.data_ptr s.position) data.length),
          { s with position := s.position + data.length }) ∧
      write_all m s data =
        (.ok (), writeBytes m (wadd s.data_ptr s.position) data,
          { s with position := s.position + data.length })) := by
  obtain ⟨hpl, hlc⟩ := hinv
  have hl : s.limit < W := lt_of_le_of_lt hlc hcap
  have hrem : remaining s = s.limit - s.position := wsub_eq_sub hpl hl
  have hrem2 : wsub s.limit s.position = s.limit - s.position := wsub_eq_sub hpl hl
  constructor
  · intro hn hlt
    rw [hrem] at hlt
    constructor
    · unfold read_exact
      rw [if_neg (by omega), if_pos (by omega)]
    · unfold write_all
      rw [if_neg (by omega), if_pos (by omega)]
  · intro hge
    rw [hrem] at hge
    by_cases h0 : data.length = 0
    · obtain rfl : data = [] := List.length_eq_zero.mp h0
      obtain ⟨dp, cap, lim, posn, reg, dtor⟩ := s
      constructor
      · unfold read_exact
        simp [readBytes]
      · unfold write_all
        simp [writeBytes_nil]
    · have hadd : wadd s.position data.length = s.position + data.length :=
        wadd_eq_add (by omega)
      constructor
      · unfold read_exact
        rw [if_neg h0, if_neg (by omega), hadd]
      · unfold write_all
        rw [if_neg h0, if_neg (by omega), hadd]

/-- Witness for `read_exact_write_all_spec`: 3 bytes on a buffer with
`remaining() = 6`. -/
theorem read_exact_write_all_spec_witness :
    read_exact (fun a => a) ⟨100, 8, 8, 2, 0, none⟩ 3 =
      (.ok (readBytes (fun a => a) (wadd 100 2) 3), ⟨100, 8, 8, 5, 0, none⟩) ∧
    write_all (fun a => a) ⟨100, 8, 8, 2, 0, none⟩ [5, 6, 7] =
      (.ok (), writeBytes (fun a => a) (wadd 100 2) [5, 6, 7], ⟨100, 8, 8, 5, 0, none⟩) :=
  (read_exact_write_all_spec (fun a => a) ⟨100, 8, 8, 2, 0, none⟩ [5, 6, 7]
    (by decide) (by decide)).2 (by decide)

/-- C8 (amended): for every element size `sz ≥ 1` and alignment `align ≥ 1`,
provided `index + sz` does not overflow usize, the typed single-element
accessors panic exactly when `index + sz - 1 ≥ limit` (for any pointer
alignment, via unaligned access), and the typed slice accessors return `None`
exactly when the base pointer is not aligned to `align`, otherwise a slice of
length `limit / sz` (truncating a trailing partial element). -/
theorem typed_access_spec (m : Mem) (sz align : Nat) (s : HBuf) (index : Nat)
    (value : List Nat) (hsz : 1 ≤ sz) (hal : 1 ≤ align) (hov : index + sz ≤ W) :
    (get_typed m sz s index = none ↔ s.limit ≤ index + sz - 1) ∧
    (s.limit > index + sz - 1 →
      get_typed m sz s index = some (readBytes m (wadd s.data_ptr index) sz)) ∧
    (set_typed m sz s index value = none ↔ s.limit ≤ index + sz - 1) ∧
    (set_typed m sz s index value ≠ none → ∀ a : Nat,
      (set_typed m sz s index value).getD m a =
        writeBytes m (wadd s.data_ptr index) value a) ∧
    (as_slice_typed sz align s = none ↔ s.data_ptr % align ≠ 0) ∧
    (s.data_ptr % align = 0 →
      as_slice_typed sz align s = some (s.data_ptr, s.limit / sz)) := by
  have hidx : wadd index (sz - 1) = index + sz - 1 := by
    have := wadd_eq_add (a := index) (b := sz - 1) (by omega)
    omega
  refine ⟨?_, ?_, ?_, ?_, ?_, ?_⟩
  · unfold get_typed
    rw [hidx]
    split_ifs with h
    · simp [h]
    · simp [h]
  · intro h
    unfold get_typed
    rw [hidx, if_neg (by omega)]
  · unfold set_typed
    rw [hidx]
    split_ifs with h
    · simp [h]
    · simp [h]
  · intro h a
    unfold set_typed at h ⊢
    rw [hidx] at h ⊢
    split_ifs at h ⊢ with h2
    · exact absurd rfl h
    · rfl
  · unfold as_slice_typed
    split_ifs with h
    · simp only [ne_eq, true_iff]
      intro hc
      exact h ((align_offset_eq_zero hal).mpr hc)
    · push_neg at h
      simp only [ne_eq]
      constructor
      · intro hc
        exact absurd hc (by simp)
      · intro hc
        exact absurd ((align_offset_eq_zero hal).mp h) hc
  · intro h
    unfold as_slice_typed
    rw [if_neg (by simp [(align_offset_eq_zero hal).mpr h])]

/-- Witness for `typed_access_spec`: 4-byte elements on an aligned buffer of
limit 10. -/
theorem typed_access_spec_witness :
    (get_typed (fun _ => 0) 4 ⟨8, 10, 10, 0, 0, none⟩ 2 = none ↔ (10 : Nat) ≤ 2 + 4 - 1) ∧
    ((10 : Nat) > 2 + 4 - 1 →
      get_typed (fun _ => 0) 4 ⟨8, 10, 10, 0, 0, none⟩ 2 =
        some (readBytes (fun _ => 0) (wadd 8 2) 4)) ∧
    (set_typed (fun _ => 0) 4 ⟨8, 10, 10, 0, 0, none⟩ 2 [1, 2, 3, 4] = none ↔
      (10 : Nat) ≤ 2 + 4 - 1) ∧
    (set_typed (fun _ => 0) 4 ⟨8, 10, 10, 0, 0, none⟩ 2 [1, 2, 3, 4] ≠ none → ∀ a : Nat,
      (set_typed (fun _ => 0) 4 ⟨8, 10, 10, 0, 0, none⟩ 2 [1, 2, 3, 4]).getD (fun _ => 0) a =
        writeBytes (fun _ => 0) (wadd 8 2) [1, 2, 3, 4] a) ∧
    (as_slice_typed 4 4 ⟨8, 10, 10, 0, 0, none⟩ = none ↔ (8 : Nat) % 4 ≠ 0) ∧
    ((8 : Nat) % 4 = 0 →
      as_slice_typed 4 4 ⟨8, 10, 10, 0, 0, none⟩ = some (8, 10 / 4)) :=
  typed_access_spec (fun _ => 0) 4 4 ⟨8, 10, 10, 0, 0, none⟩ 2 [1, 2, 3, 4]
    (by decide) (by decide) (by decide)

theorem arcRun_inv (e : HBufDestructor) (ops : List ArcOp) :
    ∀ st st' : RegState,
      st.calls = (if st.live = 0 then [(e.data_ptr, e.capacity)] else []) →
      arcRun e st ops = some st' →
      st'.calls = (if st'.live = 0 then [(e.data_ptr, e.capacity)] else []) := by
  induction ops with
  | nil =>
    intro st st' hP h
    simp only [arcRun] at h
    cases h
    exact hP
  | cons op ops ih =>
    intro st st' hP h
    simp only [arcRun] at h
    rcases hst : arcStep e st op with _ | st2
    · rw [hst] at h
      cases h
    · rw [hst] at h
      refine ih st2 st' ?_ h
      cases op <;> simp only [arcStep] at hst
      · split_ifs at hst with h0
        cases hst
        simp_all
      · split_ifs at hst with h0
        cases hst
        simp_all
      · split_ifs at hst with h0 h1
        · cases hst
          simp_all
        · cases hst
          have : st.live - 1 ≠ 0 := by omega
          simp_all

/-- C9: for a registry entry created with a destructor (one initial strong
handle) and any sequence of clone/split/drop handle events, the release action
is invoked exactly once, with the original pointer and size, at the event that
drops the last live handle — and the call log is empty in every state in which
a handle is still alive. -/
theorem destructor_fires_once (e : HBufDestructor) (ops : List ArcOp) (st' : RegState)
    (h : arcRun e ⟨1, []⟩ ops = some st') :
    st'.calls = (if st'.live = 0 then [(e.data_ptr, e.capacity)] else []) :=
  arcRun_inv e ops ⟨1, []⟩ st' (by simp) h

/-- Witness for `destructor_fires_once`: 10 live handles (1 original + 9
clones), then 10 drops; the log holds exactly one call, with the original
pointer 77 and size 16. -/
theorem destructor_fires_once_witness :
    (⟨0, [(77, 16)]⟩ : RegState).calls =
      (if (⟨0, [(77, 16)]⟩ : RegState).live = 0 then [((77 : Nat), (16 : Nat))] else []) :=
  destructor_fires_once ⟨77, 16, .destructor 3⟩
    (List.replicate 9 .cloneOp ++ List.replicate 10 .dropOp) ⟨0, [(77, 16)]⟩ (by decide)

end Heapbuf
